import Mathlib

/-!
Verification of the markdown-to-social pipeline of the `tips` repository
(`scripts/process_post.py`, `scripts/prepare_social_post.py`,
`scripts/generate_images.py`) against its specification.

The Python scripts operate on strings with `re` substitutions and searches.
We embed them shallowly: strings become `String` or `List Char`, and each
`re.sub` or `re.search` call becomes an executable Lean function whose
behaviour was derived from the exact semantics of the pattern used at that
call site (leftmost match, greedy and lazy quantifier backtracking, the
MULTILINE and DOTALL flags).  Scanning functions that jump over a matched
region take a fuel argument so that they are structurally recursive and
kernel-computable; the public wrappers pass the input length as fuel, which
is always sufficient because every step consumes at least one character.

Python's `\s` and `str.strip` whitespace are modelled on the ASCII range
(space, tab, newline, carriage return, form feed, vertical tab); Python's
`\w` is modelled as ASCII alphanumeric or underscore.  The documents the
scripts process are ASCII.
-/

set_option maxRecDepth 8000
set_option linter.unusedVariables false

/-- Python whitespace on the ASCII range: the characters matched by `\s`
and stripped by `str.strip`. -/
def pyIsSpace (c : Char) : Bool :=
  c == ' ' || c == '\t' || c == '\n' || c == '\r' || c == '\x0b' || c == '\x0c'

/-- Python `\w` on the ASCII range: alphanumeric or underscore. -/
def isWordChar (c : Char) : Bool :=
  c.isAlphanum || c == '_'

/-- Drop trailing characters satisfying `pyIsSpace` (the right half of
Python `str.strip`), implemented by structural recursion. -/
def trimRight : List Char → List Char
  | [] => []
  | c :: cs => if (trimRight cs).isEmpty && pyIsSpace c then [] else c :: trimRight cs

/-- Drop leading characters satisfying `pyIsSpace` (the left half of
Python `str.strip`). -/
def trimLeft (l : List Char) : List Char :=
  l.dropWhile pyIsSpace

/-- Python `str.strip()` on a character list. -/
def pyStripL (l : List Char) : List Char :=
  trimLeft (trimRight l)

/-- Python `str.strip()`. -/
def pyStrip (s : String) : String :=
  String.mk (pyStripL s.data)

/-- Python `str.lower()` on the ASCII range. -/
def pyToLower (s : String) : String :=
  String.mk (s.data.map Char.toLower)

/-!
## Code-fence extraction — `extract_code_blocks` (process_post.py lines 19-47)

The pattern is `` ```(\w*)\n(.*?)``` `` with `re.DOTALL`: an opening triple
backtick, a greedy word-character language tag, a newline, then a lazy body
ended by the earliest closing triple backtick.  `re.findall` scans left to
right; a failed attempt advances one character, a successful match resumes
right after the closing fence.
-/

/-- Split at the earliest occurrence of a closing ` ``` ` fence: returns the
lazy `(.*?)` body and the remainder after the fence. -/
def splitCloseFence : List Char → Option (List Char × List Char)
  | '`' :: '`' :: '`' :: rest => some ([], rest)
  | c :: cs => (splitCloseFence cs).map (fun r => (c :: r.1, r.2))
  | [] => none

/-- Attempt the fenced-code-block pattern at the current position.  Returns
`(language tag, body, remainder after the match)` on success. -/
def tryFence (s : List Char) : Option (List Char × List Char × List Char) :=
  if s.take 3 = ['`', '`', '`'] then
    let t := s.drop 3
    let lang := t.takeWhile isWordChar
    let rest := t.drop lang.length
    if rest.head? = some '\n' then
      (splitCloseFence rest.tail).map (fun r => (lang, r.1, r.2))
    else none
  else none

/-- Scan the whole text for fenced code blocks, collecting `(lang, body)`
pairs in extraction order.  Fueled; one unit of fuel per scan step. -/
def scanFGo : Nat → List Char → List (List Char × List Char)
  | 0, _ => []
  | _ + 1, [] => []
  | f + 1, c :: cs =>
    match tryFence (c :: cs) with
    | some r => (r.1, r.2.1) :: scanFGo f r.2.2
    | none => scanFGo f cs

/-!
### BEFORE/AFTER labels

`re.search(r'^#\s*BEFORE:', code, re.MULTILINE)`: at the start of some line,
a `#`, then any run of whitespace (which, being `\s`, may even cross line
breaks), then the literal `BEFORE:`.  Likewise for `AFTER:`.
-/

/-- The label pattern `#` + `\s*` + literal marker, attempted at one
position. -/
def labelMatchAt (marker : List Char) : List Char → Bool
  | '#' :: rest => marker.isPrefixOf (rest.dropWhile pyIsSpace)
  | _ => false

/-- Search every `^` position (string start and after each newline) for the
label pattern. -/
def labelSearchGo (marker : List Char) : Bool → List Char → Bool
  | _, [] => false
  | atLS, c :: cs =>
    (atLS && labelMatchAt marker (c :: cs)) || labelSearchGo marker (c == '\n') cs

/-- `re.search(r'^#\s*<marker>', code, re.MULTILINE)` as a Boolean. -/
def labelSearch (marker : List Char) (code : List Char) : Bool :=
  labelSearchGo marker true code

/-- The label assigned to one code block (process_post.py lines 34-43):
BEFORE wins over AFTER; otherwise the empty label. -/
def labelOf (code : List Char) : String :=
  if labelSearch "BEFORE:".data code then "BEFORE"
  else if labelSearch "AFTER:".data code then "AFTER"
  else ""

/-- `extract_code_blocks` (process_post.py lines 19-47): the list of
`(language, code, label)` triples, in extraction order. -/
def extract_code_blocks (markdown_content : String) : List (String × String × String) :=
  (scanFGo markdown_content.data.length markdown_content.data).map
    (fun b => (String.mk b.1, String.mk b.2, labelOf b.2))

example : extract_code_blocks "```python\nx = 1\n```" = [("python", "x = 1\n", "")] := by decide
example : extract_code_blocks "```python\n# BEFORE: a\n```" = [("python", "# BEFORE: a\n", "BEFORE")] := by
  decide
example : extract_code_blocks "```py\nunterminated" = [] := by decide
example : extract_code_blocks "````python\n x```" = [("python", " x", "")] := by decide

/-!
## `clean_for_social` (process_post.py lines 94-121)

Four `re.sub` passes followed by `str.strip`:
1. `` ```\w*\n.*?``` `` (DOTALL) → a fixed placeholder;
2. `^#{1,6}\s+(.+)$` (MULTILINE) → the captured group (heading markup
   stripped; note `\s+` may cross line breaks, and when the text runs out at
   the end of the string the greedy `\s+` backtracks so that the group can
   capture a final whitespace character);
3. `^Python\s*$` (MULTILINE) → removed (the greedy `\s*` backtracks to the
   longest whitespace prefix after which the next character is a newline or
   the string ends);
4. `\n{3,}` → exactly two newlines;
then `str.strip()`.
-/

/-- The placeholder substituted for each code block. -/
def placeholderText : String := "[Code example - see attached image]"

/-- Replace every fenced code block with the placeholder (pass 1 of
`clean_for_social`). -/
def replaceFGo : Nat → List Char → List Char
  | 0, l => l
  | _ + 1, [] => []
  | f + 1, c :: cs =>
    match tryFence (c :: cs) with
    | some r => placeholderText.data ++ replaceFGo f r.2.2
    | none => c :: replaceFGo f cs

/-- Pass 1 of `clean_for_social` on a character list. -/
def replaceCodeBlocksL (l : List Char) : List Char :=
  replaceFGo l.length l

/-- The regex fragment `\s+(.+)$` (MULTILINE `$`) at the start of `t`,
with Python's greedy backtracking.  Returns
`(whitespace consumed, captured group, remainder after the match)`.
When non-whitespace text follows the maximal whitespace run, the run is
consumed whole and the group is the rest of that line.  When the string
ends inside the whitespace run, `\s+` backs off to just before the last
non-newline whitespace character, which the group then captures. -/
def matchWsText (t : List Char) : Option (List Char × List Char × List Char) :=
  let W := t.takeWhile pyIsSpace
  if W.isEmpty then none
  else
    let rest := t.drop W.length
    if rest.isEmpty then
      let V := (W.reverse.dropWhile (fun c => c == '\n')).reverse
      if 2 ≤ V.length then some (V.dropLast, [V.getLastD ' '], W.drop V.length)
      else none
    else
      let g := rest.takeWhile (fun c => !(c == '\n'))
      some (W, g, rest.drop g.length)

/-- The heading pattern `^#{1,6}\s+(.+)$` attempted at a line start: one to
six hashes (backtracking cannot help, so more than six hashes never match),
then `matchWsText`.  Returns `(captured group, remainder)`. -/
def tryHeading (s : List Char) : Option (List Char × List Char) :=
  let k := (s.takeWhile (fun c => c == '#')).length
  if 1 ≤ k ∧ k ≤ 6 then
    (matchWsText (s.drop k)).map (fun r => (r.2.1, r.2.2))
  else none

/-- Pass 2 of `clean_for_social`: substitute the heading pattern by its
captured group at every line start.  The Boolean argument tracks whether the
current position is a `^` position; a match never ends with a newline, so
scanning resumes mid-line. -/
def stripHGo : Nat → Bool → List Char → List Char
  | 0, _, l => l
  | _ + 1, _, [] => []
  | f + 1, atLS, c :: cs =>
    if atLS then
      match tryHeading (c :: cs) with
      | some r => r.1 ++ stripHGo f false r.2
      | none => c :: stripHGo f (c == '\n') cs
    else c :: stripHGo f (c == '\n') cs

/-- Pass 2 of `clean_for_social` on a character list. -/
def stripHeadingsL (l : List Char) : List Char :=
  stripHGo l.length true l

/-- The pattern `^Python\s*$` attempted at a line start.  Returns
`(remainder after the match, whether the remainder sits at a line start)`;
the replacement is empty.  `\s*` greedily keeps the longest whitespace
prefix after which the next character is a newline, or everything when the
string ends inside the run. -/
def tryPython (s : List Char) : Option (List Char × Bool) :=
  if "Python".data.isPrefixOf s then
    let t := s.drop 6
    let W := t.takeWhile pyIsSpace
    let rest := t.drop W.length
    if rest.isEmpty then some ([], false)
    else
      let R := W.reverse.dropWhile (fun c => !(c == '\n'))
      if R.isEmpty then none
      else
        let P := R.reverse
        some (('\n' :: W.drop P.length) ++ rest, P.dropLast.getLastD ' ' == '\n')
  else none

/-- Pass 3 of `clean_for_social`: delete `^Python\s*$` matches at line
starts. -/
def removePyGo : Nat → Bool → List Char → List Char
  | 0, _, l => l
  | _ + 1, _, [] => []
  | f + 1, atLS, c :: cs =>
    if atLS then
      match tryPython (c :: cs) with
      | some r => removePyGo f r.2 r.1
      | none => c :: removePyGo f (c == '\n') cs
    else c :: removePyGo f (c == '\n') cs

/-- Pass 3 of `clean_for_social` on a character list. -/
def removePythonLinesL (l : List Char) : List Char :=
  removePyGo l.length true l

/-- Pass 4 of `clean_for_social`: `re.sub(r"\n{3,}", "\n\n", ·)`.  Each
maximal run of three or more newlines becomes exactly two. -/
def collapseGo : Nat → List Char → List Char
  | 0, l => l
  | _ + 1, [] => []
  | f + 1, c :: cs =>
    if c = '\n' ∧ cs.take 2 = ['\n', '\n'] then
      '\n' :: '\n' :: collapseGo f ((cs.drop 2).dropWhile (fun c => c == '\n'))
    else c :: collapseGo f cs

/-- Pass 4 of `clean_for_social` on a character list. -/
def collapseNLL (l : List Char) : List Char :=
  collapseGo l.length l

/-- `clean_for_social` on a character list: the four substitution passes
followed by `strip()`. -/
def cleanL (l : List Char) : List Char :=
  pyStripL (collapseNLL (removePythonLinesL (stripHeadingsL (replaceCodeBlocksL l))))

/-- `clean_for_social` (process_post.py lines 94-121). -/
def clean_for_social (markdown_content : String) : String :=
  String.mk (cleanL markdown_content.data)

example : clean_for_social "## Tip 1\n\nHello world\n" = "Tip 1\n\nHello world" := by decide
example : clean_for_social "## T\n\n```python\nx\n```\nPython\na\n\n\n\nb" =
    "T\n\n[Code example - see attached image]\n\na\n\nb" := by decide
example : clean_for_social "## ## x" = "## x" := by decide
example : clean_for_social "X\nPython\n\n\nY" = "X\n\nY" := by decide
example : clean_for_social "##\n\nx" = "x" := by decide

/-!
## `verify_python_code` (process_post.py lines 50-91)

The function's Boolean result depends on external collaborators (CPython's
`compile` builtin and a `python -m py_compile` subprocess); we model those
as parameters: `syntaxOk` is the verdict of a syntax check of the code, and
`PyOutcome` is how the subprocess call ends.  The visible effects of the
function — which checks it performs and what happens to the temporary
file — are recorded as an event trace, so that the control flow of the
`try/except/finally` block is captured. -/

/-- The observable steps of `verify_python_code`. -/
inductive VerifyEvent
  /-- `compile(code, '<string>', 'exec')` — in-process syntax check only. -/
  | compiledInProcess
  /-- The `tempfile.NamedTemporaryFile(delete=False)` block wrote the code
  to a temporary file. -/
  | wroteTempFile
  /-- `subprocess.run(["python", "-m", "py_compile", temp_path], ...)`. -/
  | ranSyntaxSubprocess
  /-- `os.unlink(temp_path)` in the `finally` block. -/
  | removedTempFile
deriving DecidableEq

/-- How the `subprocess.run` call ends: normally, with
`CalledProcessError` (non-zero exit under `check=True`), or with some other
exception. -/
inductive PyOutcome
  | ok
  | calledProcessError
  | raised

/-- The result of running `verify_python_code`: the returned Boolean, or
`none` when an exception propagates out, together with the event trace. -/
structure VerifyRun where
  returned : Option Bool
  events : List VerifyEvent
deriving DecidableEq

/-- The `try/except CalledProcessError` body around `subprocess.run`
(process_post.py lines 76-88): success returns `True`, a
`CalledProcessError` is caught and returns `False`, any other exception
propagates. -/
def runSyntaxSubprocess : PyOutcome → VerifyRun
  | .ok => { returned := some true, events := [.ranSyntaxSubprocess] }
  | .calledProcessError => { returned := some false, events := [.ranSyntaxSubprocess] }
  | .raised => { returned := none, events := [.ranSyntaxSubprocess] }

/-- `try ... finally fin`: the `finally` events run after the body on every
exit path — normal return and exception alike. -/
def withFinally (body : VerifyRun) (fin : List VerifyEvent) : VerifyRun :=
  { returned := body.returned, events := body.events ++ fin }

/-- Substring test on character lists (Python's `in` on strings). -/
def listInfix (pat : List Char) : List Char → Bool
  | [] => pat.isEmpty
  | c :: cs => pat.isPrefixOf (c :: cs) || listInfix pat cs

/-- The marker test of process_post.py line 59: the code mentions the
mirascope framework. -/
def containsMarker (code : String) : Bool :=
  listInfix "mirascope".data code.data || listInfix "@llm.call".data code.data ||
    listInfix "@prompt_template".data code.data

/-- `verify_python_code` (process_post.py lines 50-91).  With a marker the
code is only compiled in process (`except SyntaxError` turns a syntax error
into `False`); otherwise the code is written to a temporary file, checked by
a `py_compile` subprocess, and the temporary file is unlinked in the
`finally` block. -/
def verify_python_code (syntaxOk : String → Bool) (out : PyOutcome) (code : String) :
    VerifyRun :=
  if containsMarker code then
    { returned := some (syntaxOk code), events := [.compiledInProcess] }
  else
    withFinally
      { returned := (runSyntaxSubprocess out).returned,
        events := .wroteTempFile :: (runSyntaxSubprocess out).events }
      [.removedTempFile]

/-!
## `process_markdown_file` (process_post.py lines 124-196)

The file read and the existence check are external I/O; the pure core takes
the file's content and the fallback title (`path.stem`) as arguments.  The
per-block verification verdict is passed in as the `ver` oracle (the
Boolean returned by `verify_python_code`, whose own model is above).
-/

/-- The parsed document record returned by `process_markdown_file`. -/
structure PostData where
  title : String
  hook : String
  first_tweet : String
  solution : String
  takeaway : String
  clean_content : String
  verified : Bool

/-- The title pattern `^##\s+(.+)$` attempted at a line start: exactly two
hashes then whitespace (three or more hashes fail, since `\s+` then faces a
`#`).  Returns the captured group and the length of the whole match, to
recover `match.end()`. -/
def tryTitle : List Char → Option (List Char × Nat)
  | '#' :: '#' :: t =>
    (matchWsText t).map (fun r => (r.2.1, 2 + r.1.length + r.2.1.length))
  | _ => none

/-- `re.search(r"^##\s+(.+)$", content, re.MULTILINE)`: scan the `^`
positions for the title pattern; returns the captured group and the
absolute offset of the match end. -/
def searchTitleGo : Bool → Nat → List Char → Option (List Char × Nat)
  | _, _, [] => none
  | atLS, pos, c :: cs =>
    if atLS then
      match tryTitle (c :: cs) with
      | some r => some (r.1, pos + r.2)
      | none => searchTitleGo (c == '\n') (pos + 1) cs
    else searchTitleGo (c == '\n') (pos + 1) cs

/-- The leftmost title match of the document. -/
def titleResult (cl : List Char) : Option (List Char × Nat) :=
  searchTitleGo true 0 cl

/-- Body of the hook pattern after the `\*\*`: the lazy `(.+?)` (at least
one non-newline character) up to the earliest closing `\*\*`. -/
def grabUntilStars : List Char → Option (List Char)
  | '*' :: '*' :: _ => some []
  | '\n' :: _ => none
  | c :: cs => (grabUntilStars cs).map (fun g => c :: g)
  | [] => none

/-- The hook pattern `^\s*\*\*(.+?)\*\*` attempted at a line start:
optional whitespace (which may cross line breaks), `**`, then the lazy
group. -/
def tryHook (s : List Char) : Option (List Char) :=
  match s.dropWhile pyIsSpace with
  | '*' :: '*' :: rem =>
    match rem with
    | [] => none
    | c :: cs => if c = '\n' then none else (grabUntilStars cs).map (fun g => c :: g)
  | _ => none

/-- `re.search(r"^\s*\*\*(.+?)\*\*", after_title, re.MULTILINE)`: scan the
`^` positions for the hook pattern. -/
def searchHookGo : Bool → List Char → Option (List Char)
  | _, [] => none
  | atLS, c :: cs =>
    if atLS then
      match tryHook (c :: cs) with
      | some g => some g
      | none => searchHookGo (c == '\n') cs
    else searchHookGo (c == '\n') cs

/-- The literal-whitespace-literal pattern `<pre>\s+<lit>` at one position
(used unanchored, so no line-start requirement). -/
def matchLitWsLit (pre lit : List Char) (s : List Char) : Bool :=
  pre.isPrefixOf s &&
    (let t := s.drop pre.length
     let W := t.takeWhile pyIsSpace
     !W.isEmpty && lit.isPrefixOf (t.drop W.length))

/-- `###\s+The Problem` at one position. -/
def matchProblemAt (s : List Char) : Bool :=
  matchLitWsLit "###".data "The Problem".data s

/-- `###\s+The Solution[:\s]` at one position: the literal must be followed
by a colon or a whitespace character. -/
def matchSolutionAt (s : List Char) : Bool :=
  matchLitWsLit "###".data "The Solution".data s &&
    (let t := s.drop 3
     let W := t.takeWhile pyIsSpace
     match (t.drop (W.length + "The Solution".length)).head? with
     | some ch => ch == ':' || pyIsSpace ch
     | none => false)

/-- `###\s+The Takeaway` at one position. -/
def matchTakeawayAt (s : List Char) : Bool :=
  matchLitWsLit "###".data "The Takeaway".data s

/-- `re.search` without anchors: the index of the leftmost position where
`p` matches. -/
def searchIdx (p : List Char → Bool) : List Char → Option Nat
  | [] => none
  | c :: cs => if p (c :: cs) then some 0 else (searchIdx p cs).map (· + 1)

/-- `re.split(r"\n\n+", content)`: split at each maximal run of two or more
newlines. -/
def splitParasGo : Nat → List Char → List Char → List (List Char)
  | 0, cur, s => [cur ++ s]
  | _ + 1, cur, [] => [cur]
  | f + 1, cur, c :: cs =>
    if c = '\n' ∧ cs.head? = some '\n' then
      cur :: splitParasGo f [] (cs.dropWhile (fun c => c == '\n'))
    else splitParasGo f (cur ++ [c]) cs

/-- Paragraph split of the document. -/
def splitParas (l : List Char) : List (List Char) :=
  splitParasGo l.length [] l

/-- The solution/takeaway extraction (process_post.py lines 179-192):
both sections are produced only when both headings are found; otherwise
`solution_content` keeps its initial `""` and `takeaway_content` is never
assigned, which the `locals()` guard turns into `""`. -/
def solutionTakeawayOf (cl : List Char) : String × String :=
  match searchIdx matchSolutionAt cl, searchIdx matchTakeawayAt cl with
  | some i, some j =>
    (String.mk (pyStripL ((cl.take j).drop i)), String.mk (pyStripL (cl.drop j)))
  | _, _ => ("", "")

/-- The per-document verification loop (process_post.py lines 167-173):
`verified` starts `True` and is set to `False` whenever a block whose
language lowercases to `python` fails the `ver` check; iteration always
continues. -/
def computeVerified (ver : String → Bool) (blocks : List (String × String × String)) : Bool :=
  blocks.foldl
    (fun acc b => if pyToLower b.1 = "python" then (if ver b.2.1 then acc else false) else acc)
    true

/-- `process_markdown_file` (process_post.py lines 124-196), pure core:
`content` is the file text, `fallbackTitle` is `path.stem`, `ver` is the
verdict of `verify_python_code` per code string. -/
def process_markdown_file (ver : String → Bool) (content fallbackTitle : String) : PostData :=
  let cl := content.data
  { title :=
      match titleResult cl with
      | some r => String.mk r.1
      | none => fallbackTitle
  , hook :=
      match searchHookGo true
        (match titleResult cl with
         | some r => cl.drop r.2
         | none => cl) with
      | some g => String.mk g
      | none => ""
  , first_tweet :=
      match searchIdx matchProblemAt cl with
      | some i => String.mk (pyStripL (cl.take i))
      | none =>
        let ps := splitParas cl
        if 2 < ps.length then
          String.mk (pyStripL (List.intercalate ['\n', '\n'] ((ps.drop 1).take 2)))
        else ""
  , solution := (solutionTakeawayOf cl).1
  , takeaway := (solutionTakeawayOf cl).2
  , clean_content := clean_for_social content
  , verified := computeVerified ver (extract_code_blocks content)
  }

example :
    (process_markdown_file (fun _ => true)
      "## Tip 1\n\n**Do X** now\n\n### The Problem\n\nP\n\n### The Solution: Y\n\nS\n\n### The Takeaway\n\nT\n"
      "tip").title = "Tip 1" := by decide
example :
    (process_markdown_file (fun _ => true)
      "## Tip 1\n\n**Do X** now\n\n### The Problem\n\nP\n\n### The Solution: Y\n\nS\n\n### The Takeaway\n\nT\n"
      "tip").hook = "Do X" := by decide
example :
    (process_markdown_file (fun _ => true)
      "## Tip 1\n\n**Do X** now\n\n### The Problem\n\nP\n\n### The Solution: Y\n\nS\n\n### The Takeaway\n\nT\n"
      "tip").solution = "### The Solution: Y\n\nS" := by decide
example :
    (process_markdown_file (fun _ => true)
      "## Tip 1\n\n**Do X** now\n\n### The Problem\n\nP\n\n### The Solution: Y\n\nS\n\n### The Takeaway\n\nT\n"
      "tip").takeaway = "### The Takeaway\n\nT" := by decide
example :
    (process_markdown_file (fun _ => true)
      "## Tip 1\n\n**Do X** now\n\n### The Problem\n\nP\n\n### The Solution: Y\n\nS\n\n### The Takeaway\n\nT\n"
      "tip").first_tweet = "## Tip 1\n\n**Do X** now" := by decide
example : (process_markdown_file (fun _ => true) "hello" "tip").solution = "" := by decide

/-!
## `create_twitter_thread` (prepare_social_post.py lines 39-100) and
## `prepare_social_post` (prepare_social_post.py lines 103-225)
-/

/-- Replace every non-overlapping occurrence of `pat` (scanning left to
right) by `rep`: the semantics of Python `str.replace` and of `re.sub` with
an escaped literal pattern. -/
def listReplaceGo : Nat → List Char → List Char → List Char → List Char
  | 0, _, _, l => l
  | _ + 1, _, _, [] => []
  | f + 1, pat, rep, c :: cs =>
    if pat.isPrefixOf (c :: cs) then
      rep ++ listReplaceGo f pat rep ((c :: cs).drop pat.length)
    else c :: listReplaceGo f pat rep cs

/-- Python `s.replace(pat, rep)` for a non-empty `pat`. -/
def pyReplace (s pat rep : String) : String :=
  String.mk (listReplaceGo s.data.length pat.data rep.data s.data)

/-- `re.sub(r"^##.*?\n\n", "", s)` without MULTILINE: the pattern can match
only at the very start of the string — `##`, then a lazy run of
non-newline characters, then a blank line.  It matches exactly when the
string starts with `##` and the first newline is immediately followed by
another; the match ends after that pair. -/
def findNN : List Char → Option (List Char)
  | [] => none
  | '\n' :: '\n' :: r => some r
  | '\n' :: _ => none
  | _ :: cs => findNN cs

/-- The title-line removal used on `first_tweet` (line 60) and on the
LinkedIn content (line 125). -/
def removeTitleOnce (l : List Char) : List Char :=
  match l with
  | '#' :: '#' :: rest =>
    match findNN rest with
    | some r => r
    | none => l
  | _ => l

example : removeTitleOnce "## Tip\n\nHello".data = "Hello".data := by decide
example : removeTitleOnce "Tip 1\n\nHello".data = "Tip 1\n\nHello".data := by decide
example : removeTitleOnce "## Tip\nx\n\nHello".data = "## Tip\nx\n\nHello".data := by decide

/-- `create_twitter_thread` (prepare_social_post.py lines 39-100).  The
`image_paths` parameter is accepted but, as in the source, never used. -/
def create_twitter_thread (post_data : PostData) (image_paths : List String) :
    List String :=
  let first_tweet : String :=
    if post_data.hook ≠ "" then "**" ++ post_data.hook ++ "**" else ""
  let first_tweet : String :=
    if post_data.first_tweet ≠ "" then
      let intro_text := String.mk (removeTitleOnce post_data.first_tweet.data)
      let intro_text := pyStrip (pyReplace intro_text ("**" ++ post_data.hook ++ "**") "")
      if intro_text ≠ "" then
        if first_tweet ≠ "" then first_tweet ++ "\n\n" ++ intro_text else intro_text
      else first_tweet
    else first_tweet
  let second_tweet : String := ""
  let second_tweet : String :=
    if post_data.solution ≠ "" then
      let s := pyReplace (pyReplace post_data.solution "### The Solution: " "**")
        "### The Solution " "**"
      -- Python: if not solution.startswith("**")
      if ¬ "**".data.isPrefixOf s.data then "**Solution:** " ++ s else s ++ "**"
    else second_tweet
  let second_tweet : String :=
    if post_data.takeaway ≠ "" then
      let t := pyStrip (pyReplace post_data.takeaway "### The Takeaway" "**Takeaway:**")
      if second_tweet ≠ "" then second_tweet ++ "\n\n" ++ t else t
    else second_tweet
  let second_tweet := second_tweet ++ "\n\n#EffectiveAI #AIEngineering"
  [first_tweet, second_tweet]

/-!
### `process_code_blocks_from_file` (generate_images.py lines 52-104)

The external `carbon-now` invocation is a side effect; the function's value
is the list of image paths it appends, one per labeled block of a
recognized language.  Reading the markdown file is external I/O, so the
pure core takes the content, the output directory and the file's base name.
-/

/-- The languages accepted for image generation (generate_images.py
line 81). -/
def recognizedImageLangs : List String :=
  ["python", "javascript", "typescript", "java", "bash", "sh", "txt", "sql"]

/-- The output filename per label (generate_images.py lines 85-90). -/
def imageFilename (base label : String) : String :=
  if label = "BEFORE" then base ++ "_BEFORE.png"
  else if label = "AFTER" then base ++ "_AFTER.png"
  else base ++ "_code.png"

/-- `process_code_blocks_from_file`, pure core: the image paths generated
for the document's code blocks, in order. -/
def process_code_blocks_from_file (content outputDir base : String) : List String :=
  (extract_code_blocks content).filterMap (fun b =>
    let lang := if b.1 = "" then "txt" else b.1
    if recognizedImageLangs.contains (pyToLower lang) then
      some (outputDir ++ "/" ++ imageFilename base b.2.2)
    else none)

/-- The result record assembled by `prepare_social_post`. -/
structure PreparedPost where
  title : String
  verified : Bool
  /-- The image manifest.  prepare_social_post.py line 118 — the call to
  `process_code_blocks_from_file` — is commented out and line 119 sets
  `image_paths = {}`, so the manifest the function builds is empty. -/
  image_paths : List String
  twitter_thread : List String
  linkedin_content : String

/-- `prepare_social_post` (prepare_social_post.py lines 103-225), pure
core: directory creation, file writes and the image-relocation sweep are
external effects; the returned record is the `result` dictionary. -/
def prepare_social_post (ver : String → Bool) (content fallbackTitle : String) :
    PreparedPost :=
  let post_data := process_markdown_file ver content fallbackTitle
  -- line 118 (the process_code_blocks_from_file call) is commented out;
  -- line 119: image_paths = {}
  let image_paths : List String := []
  -- line 125: linkedin_content = re.sub(r"^##.*?\n\n", "", clean_content)
  let linkedin_content := String.mk (removeTitleOnce post_data.clean_content.data)
  let twitter_threads := create_twitter_thread post_data image_paths
  { title := post_data.title
  , verified := post_data.verified
  , image_paths := image_paths
  , twitter_thread := twitter_threads
  , linkedin_content := linkedin_content
  }

example :
    create_twitter_thread
      { title := "Tip 1", hook := "Do X", first_tweet := "## Tip 1\n\n**Do X** now"
      , solution := "### The Solution: Y\n\nS", takeaway := "### The Takeaway\n\nT"
      , clean_content := "", verified := true } [] =
    ["**Do X**\n\nnow", "**Y\n\nS**\n\n**Takeaway:**\n\nT\n\n#EffectiveAI #AIEngineering"] := by
  decide

/-!
## Claim theorems
-/

/-- A string ends with `suffix` when it is some prefix followed by
`suffix`. -/
def strEndsWith (s suffix : String) : Prop :=
  ∃ pre, s = pre ++ suffix

/-- Splitting the footer off an appended string. -/
theorem append_footer_split (a : String) :
    a ++ "\n\n#EffectiveAI #AIEngineering" =
      (a ++ "\n\n") ++ "#EffectiveAI #AIEngineering" := by
  have h : ("\n\n" ++ "#EffectiveAI #AIEngineering" : String) =
      "\n\n#EffectiveAI #AIEngineering" := by decide
  rw [String.append_assoc, h]

/-- C1: for every parsed document (and any image manifest), the Twitter
thread built by `create_twitter_thread` is a list of exactly two strings,
and the second string ends with the fixed hashtag footer
`#EffectiveAI #AIEngineering`, appended unconditionally. -/
theorem create_twitter_thread_two_tweets_with_footer
    (post_data : PostData) (image_paths : List String) :
    (create_twitter_thread post_data image_paths).length = 2 ∧
      ∃ t1 body, create_twitter_thread post_data image_paths = [t1, body] ∧
        strEndsWith body "#EffectiveAI #AIEngineering" := by
  obtain ⟨t1, s2, h⟩ :
      ∃ t1 s2, create_twitter_thread post_data image_paths =
        [t1, s2 ++ "\n\n#EffectiveAI #AIEngineering"] := ⟨_, _, rfl⟩
  refine ⟨by rw [h]; rfl, t1, _, h, s2 ++ "\n\n", ?_⟩
  exact append_footer_split s2

/-- C6: when the `### The Solution` heading or the `### The Takeaway`
heading is absent (its regex finds no match), `process_markdown_file`
returns the empty string for both the solution and the takeaway fields;
being a total function, it terminates normally and still delivers a full
record. -/
theorem process_markdown_file_missing_headings_empty
    (ver : String → Bool) (content fallbackTitle : String)
    (h : searchIdx matchSolutionAt content.data = none ∨
         searchIdx matchTakeawayAt content.data = none) :
    (process_markdown_file ver content fallbackTitle).solution = "" ∧
      (process_markdown_file ver content fallbackTitle).takeaway = "" := by
  have h2 : solutionTakeawayOf content.data = ("", "") := by
    unfold solutionTakeawayOf
    rcases h with h | h
    · rw [h]
    · rw [h]
      rcases searchIdx matchSolutionAt content.data with _ | i <;> rfl
  constructor
  · show (solutionTakeawayOf content.data).1 = ""
    rw [h2]
  · show (solutionTakeawayOf content.data).2 = ""
    rw [h2]

/-- Witness for C6 at the concrete document `"hello"`. -/
theorem process_markdown_file_missing_headings_empty_witness :
    (searchIdx matchSolutionAt "hello".data = none ∨
      searchIdx matchTakeawayAt "hello".data = none) ∧
    ((process_markdown_file (fun _ => true) "hello" "tip").solution = "" ∧
      (process_markdown_file (fun _ => true) "hello" "tip").takeaway = "") :=
  ⟨Or.inl (by decide),
   process_markdown_file_missing_headings_empty (fun _ => true) "hello" "tip"
     (Or.inl (by decide))⟩

/-- C7: for code containing a mirascope marker, `verify_python_code` only
compiles the code in process — it creates no temporary file and runs no
subprocess — and returns exactly the syntax-check verdict. -/
theorem verify_python_code_marker_syntax_only
    (syntaxOk : String → Bool) (out : PyOutcome) (code : String)
    (h : containsMarker code = true) :
    verify_python_code syntaxOk out code =
      { returned := some (syntaxOk code), events := [.compiledInProcess] } := by
  unfold verify_python_code
  rw [if_pos h]

/-- Witness for C7 at `"import mirascope"`. -/
theorem verify_python_code_marker_syntax_only_witness :
    containsMarker "import mirascope" = true ∧
      verify_python_code (fun _ => true) PyOutcome.ok "import mirascope" =
        { returned := some true, events := [.compiledInProcess] } :=
  ⟨by decide,
   verify_python_code_marker_syntax_only (fun _ => true) PyOutcome.ok
     "import mirascope" (by decide)⟩

/-- C9: for code without the mirascope marker, every exit path of
`verify_python_code` — success, non-zero exit, and a raised exception —
writes the temporary file, runs the subprocess, and removes the temporary
file as the final step, so no invocation leaks it. -/
theorem verify_python_code_always_unlinks
    (syntaxOk : String → Bool) (out : PyOutcome) (code : String)
    (h : containsMarker code = false) :
    (verify_python_code syntaxOk out code).events =
        [.wroteTempFile, .ranSyntaxSubprocess, .removedTempFile] ∧
      (verify_python_code syntaxOk out code).events.getLast? =
        some .removedTempFile := by
  unfold verify_python_code
  rw [if_neg (by simp [h])]
  cases out <;> exact ⟨rfl, rfl⟩

/-- Witness for C9 at `"x = 1"` with a raising subprocess. -/
theorem verify_python_code_always_unlinks_witness :
    containsMarker "x = 1" = false ∧
      ((verify_python_code (fun _ => true) PyOutcome.raised "x = 1").events =
          [.wroteTempFile, .ranSyntaxSubprocess, .removedTempFile] ∧
        (verify_python_code (fun _ => true) PyOutcome.raised "x = 1").events.getLast? =
          some .removedTempFile) :=
  ⟨by decide,
   verify_python_code_always_unlinks (fun _ => true) PyOutcome.raised "x = 1"
     (by decide)⟩

/-- The verification fold equals a conjunction over the block list. -/
theorem computeVerified_foldl_eq_all (ver : String → Bool) :
    ∀ (blocks : List (String × String × String)) (acc : Bool),
      blocks.foldl
          (fun acc b =>
            if pyToLower b.1 = "python" then (if ver b.2.1 then acc else false) else acc)
          acc
        = (acc && blocks.all (fun b => if pyToLower b.1 = "python" then ver b.2.1 else true))
  | [], acc => by simp
  | b :: l, acc => by
    rw [List.foldl_cons, computeVerified_foldl_eq_all ver l, List.all_cons]
    by_cases hc : pyToLower b.1 = "python"
    · rcases hv : ver b.2.1 <;> simp [hc, hv, Bool.and_assoc]
    · simp [hc, Bool.and_assoc]

/-- C8: the document-level `verified` flag of `process_markdown_file` is
the logical AND of the per-block verdicts over all blocks whose language
lowercases to `python`; one failing block makes it `false`, and the fold
still traverses every block and the function returns a full record. -/
theorem process_markdown_file_verified_eq_all
    (ver : String → Bool) (content fallbackTitle : String) :
    (process_markdown_file ver content fallbackTitle).verified =
      (extract_code_blocks content).all
        (fun b => if pyToLower b.1 = "python" then ver b.2.1 else true) := by
  show computeVerified ver (extract_code_blocks content) = _
  unfold computeVerified
  rw [computeVerified_foldl_eq_all]
  exact Bool.true_and _

/-- C10: a block whose text has line-start matches for both the BEFORE and
the AFTER marker patterns is labeled `BEFORE` — BEFORE takes precedence, so
every block gets exactly one label. -/
theorem extract_code_blocks_before_precedence
    (content lang code label : String)
    (hmem : (lang, code, label) ∈ extract_code_blocks content)
    (hb : labelSearch "BEFORE:".data code.data = true)
    (ha : labelSearch "AFTER:".data code.data = true) :
    label = "BEFORE" := by
  unfold extract_code_blocks at hmem
  obtain ⟨b, hb0, heq⟩ := List.mem_map.1 hmem
  simp only [Prod.mk.injEq] at heq
  obtain ⟨h1, h2, h3⟩ := heq
  subst h3
  subst h2
  have hb' : labelSearch "BEFORE:".data b.2 = true := hb
  show labelOf b.2 = "BEFORE"
  unfold labelOf
  rw [if_pos hb']

/-- Witness for C10 at a block carrying both markers. -/
theorem extract_code_blocks_before_precedence_witness :
    (("python", "# BEFORE: a\n# AFTER: b\n", "BEFORE") ∈
        extract_code_blocks "```python\n# BEFORE: a\n# AFTER: b\n```" ∧
      labelSearch "BEFORE:".data "# BEFORE: a\n# AFTER: b\n".data = true ∧
      labelSearch "AFTER:".data "# BEFORE: a\n# AFTER: b\n".data = true) ∧
    ("BEFORE" : String) = "BEFORE" :=
  ⟨⟨by decide, by decide, by decide⟩,
   extract_code_blocks_before_precedence
     "```python\n# BEFORE: a\n# AFTER: b\n```" "python" "# BEFORE: a\n# AFTER: b\n"
     "BEFORE" (by decide) (by decide) (by decide)⟩

/-- Spec-side definition for claim C5's wording: the label that would be
assigned if only the block's first line (the line immediately after the
opening fence) were consulted. -/
def specFirstLineLabel (code : String) : String :=
  let firstLine := code.data.takeWhile (fun c => !(c == '\n'))
  if labelMatchAt "BEFORE:".data firstLine then "BEFORE"
  else if labelMatchAt "AFTER:".data firstLine then "AFTER"
  else ""

/-- Counterexample to C5: in this block the first line is plain code and
only the second line carries the BEFORE marker, yet extraction labels the
block `BEFORE` — the label is not determined by the first line. -/
theorem extract_code_blocks_label_not_first_line_only :
    extract_code_blocks "```python\nx = 1\n# BEFORE: old\n```" =
        [("python", "x = 1\n# BEFORE: old\n", "BEFORE")] ∧
      specFirstLineLabel "x = 1\n# BEFORE: old\n" = "" := by
  constructor <;> decide

/-- C5 (amended): the label of an extracted block is `BEFORE` exactly when
the pattern `#` + optional whitespace + `BEFORE:` matches at the start of
some line of the block (not just the first), `AFTER` exactly when no line
matches BEFORE but some line matches the AFTER pattern, and empty exactly
when neither matches; later lines do affect the label. -/
theorem extract_code_blocks_label_characterization
    (content lang code label : String)
    (hmem : (lang, code, label) ∈ extract_code_blocks content) :
    (label = "BEFORE" ↔ labelSearch "BEFORE:".data code.data = true) ∧
      (label = "AFTER" ↔
        (labelSearch "BEFORE:".data code.data = false ∧
          labelSearch "AFTER:".data code.data = true)) ∧
      (label = "" ↔
        (labelSearch "BEFORE:".data code.data = false ∧
          labelSearch "AFTER:".data code.data = false)) := by
  unfold extract_code_blocks at hmem
  obtain ⟨b, hb0, heq⟩ := List.mem_map.1 hmem
  simp only [Prod.mk.injEq] at heq
  obtain ⟨h1, h2, h3⟩ := heq
  subst h3
  subst h2
  show (labelOf b.2 = "BEFORE" ↔ labelSearch "BEFORE:".data b.2 = true) ∧
    (labelOf b.2 = "AFTER" ↔
      (labelSearch "BEFORE:".data b.2 = false ∧ labelSearch "AFTER:".data b.2 = true)) ∧
    (labelOf b.2 = "" ↔
      (labelSearch "BEFORE:".data b.2 = false ∧ labelSearch "AFTER:".data b.2 = false))
  unfold labelOf
  rcases hB : labelSearch "BEFORE:".data b.2 <;>
    rcases hA : labelSearch "AFTER:".data b.2 <;>
      simp [hB, hA]

/-- Witness for the amended C5 at a block whose AFTER marker sits on its
second line. -/
theorem extract_code_blocks_label_characterization_witness :
    (("python", "y = 2\n# AFTER: new\n", "AFTER") ∈
        extract_code_blocks "```python\ny = 2\n# AFTER: new\n```") ∧
      (("AFTER" : String) = "BEFORE" ↔
          labelSearch "BEFORE:".data "y = 2\n# AFTER: new\n".data = true) ∧
      (("AFTER" : String) = "AFTER" ↔
        (labelSearch "BEFORE:".data "y = 2\n# AFTER: new\n".data = false ∧
          labelSearch "AFTER:".data "y = 2\n# AFTER: new\n".data = true)) ∧
      (("AFTER" : String) = "" ↔
        (labelSearch "BEFORE:".data "y = 2\n# AFTER: new\n".data = false ∧
          labelSearch "AFTER:".data "y = 2\n# AFTER: new\n".data = false)) :=
  ⟨by decide,
   extract_code_blocks_label_characterization
     "```python\ny = 2\n# AFTER: new\n```" "python" "y = 2\n# AFTER: new\n" "AFTER"
     (by decide)⟩

/-- C2 evidence: for a document with a BEFORE-labeled python block,
`process_code_blocks_from_file` would produce an image path for the block,
but `prepare_social_post` — whose call to it is commented out in favour of
`image_paths = {}` — returns an empty image manifest. -/
theorem prepare_social_post_image_manifest_empty :
    process_code_blocks_from_file "## T\n\n```python\n# BEFORE: x\nprint(1)\n```\n"
        "out" "tip001" = ["out/tip001_BEFORE.png"] ∧
      (prepare_social_post (fun _ => true)
          "## T\n\n```python\n# BEFORE: x\nprint(1)\n```\n" "tip001").image_paths = [] := by
  constructor
  · decide
  · rfl

/-- C3 evidence: on this document the cleaned content begins with the
title's text (`clean_for_social` already stripped the `##` markup), so the
LinkedIn regex `^##.*?\n\n` cannot match: the LinkedIn body equals the
cleaned content unchanged and still carries the title line `Tip 1`. -/
theorem prepare_social_post_linkedin_keeps_title :
    (prepare_social_post (fun _ => true) "## Tip 1\n\nHello world\n" "tip001").title
        = "Tip 1" ∧
      "Tip 1".data.isPrefixOf
          (clean_for_social "## Tip 1\n\nHello world\n").data = true ∧
      (prepare_social_post (fun _ => true) "## Tip 1\n\nHello world\n"
          "tip001").linkedin_content
        = clean_for_social "## Tip 1\n\nHello world\n" ∧
      clean_for_social "## Tip 1\n\nHello world\n" = "Tip 1\n\nHello world" := by
  refine ⟨by decide, by decide, by decide, by decide⟩

/-!
## C4: idempotence of `clean_for_social`

The claim fails in general — heading markup that survives one pass (for
example a nested `## ## x`) is stripped again by a second pass.  Below we
prove the failure at a concrete input and then prove idempotence on inputs
that trigger none of the three pattern-replacement passes: documents with
no backtick, no `#`, and no occurrence of `Python`.  On these the first
pass reduces to blank-line collapsing plus stripping, and both operations
are stable under a second pass.
-/

/-- Counterexample to C4 as stated: applying `clean_for_social` twice to
`"## ## x"` does not equal applying it once (one pass yields `"## x"`, the
second strips the remaining heading markup). -/
theorem clean_for_social_not_idempotent :
    clean_for_social (clean_for_social "## ## x") ≠ clean_for_social "## ## x" := by
  decide

/-- Definitional unfolding of `trimRight` on a cons. -/
theorem trimRight_cons (c : Char) (cs : List Char) :
    trimRight (c :: cs) =
      if (trimRight cs).isEmpty && pyIsSpace c then [] else c :: trimRight cs := rfl

theorem trimRight_isPrefix : ∀ (l : List Char), trimRight l <+: l
  | [] => List.nil_prefix
  | c :: cs => by
    rw [trimRight_cons]
    by_cases h : ((trimRight cs).isEmpty && pyIsSpace c) = true
    · rw [if_pos h]; exact List.nil_prefix
    · rw [if_neg h]; exact List.cons_prefix_cons.2 ⟨rfl, trimRight_isPrefix cs⟩

theorem trimRight_trimRight : ∀ (l : List Char), trimRight (trimRight l) = trimRight l
  | [] => rfl
  | c :: cs => by
    have ih := trimRight_trimRight cs
    rw [trimRight_cons]
    by_cases h : ((trimRight cs).isEmpty && pyIsSpace c) = true
    · rw [if_pos h]; rfl
    · rw [if_neg h, trimRight_cons, ih, if_neg h]

theorem dropWhile_dropWhile (p : Char → Bool) : ∀ (l : List Char),
    (l.dropWhile p).dropWhile p = l.dropWhile p
  | [] => rfl
  | c :: cs => by
    by_cases h : p c
    · rw [List.dropWhile_cons_of_pos h]; exact dropWhile_dropWhile p cs
    · rw [List.dropWhile_cons_of_neg h, List.dropWhile_cons_of_neg h]

theorem trimRight_trimLeft : ∀ (l : List Char), trimRight (trimLeft l) = trimLeft (trimRight l)
  | [] => rfl
  | c :: cs => by
    have ih := trimRight_trimLeft cs
    unfold trimLeft at ih ⊢
    by_cases hc : pyIsSpace c
    · rw [List.dropWhile_cons_of_pos hc, ih, trimRight_cons]
      by_cases h2 : ((trimRight cs).isEmpty && pyIsSpace c) = true
      · rw [if_pos h2]
        have hE : trimRight cs = [] := by
          rcases hE : trimRight cs with _ | ⟨a, t⟩
          · rfl
          · rw [hE] at h2; simp at h2
        rw [hE]
      · rw [if_neg h2, List.dropWhile_cons_of_pos hc]
    · rw [List.dropWhile_cons_of_neg hc, trimRight_cons]
      by_cases h2 : ((trimRight cs).isEmpty && pyIsSpace c) = true
      · exfalso; rw [Bool.and_eq_true] at h2; exact hc h2.2
      · rw [if_neg h2, List.dropWhile_cons_of_neg hc]

theorem trimLeft_trimLeft (l : List Char) : trimLeft (trimLeft l) = trimLeft l :=
  dropWhile_dropWhile pyIsSpace l

theorem pyStripL_idem (l : List Char) : pyStripL (pyStripL l) = pyStripL l := by
  unfold pyStripL
  rw [trimRight_trimLeft (trimRight l), trimRight_trimRight l, trimLeft_trimLeft]

theorem trimLeft_suffix (l : List Char) : trimLeft l <:+ l :=
  List.dropWhile_suffix pyIsSpace

theorem pyStripL_isInfix (l : List Char) : pyStripL l <:+: l :=
  ((trimLeft_suffix (trimRight l)).isInfix).trans ((trimRight_isPrefix l).isInfix)

theorem tryFence_none_of {c : Char} (cs : List Char) (h : c ≠ '`') :
    tryFence (c :: cs) = none := by
  unfold tryFence
  rw [if_neg]
  intro he
  apply h
  have h2 := congrArg List.head? he
  rw [List.take_succ_cons] at h2
  simpa using h2

theorem replaceFGo_id : ∀ (l : List Char), '`' ∉ l → ∀ f, replaceFGo f l = l
  | l, h, 0 => rfl
  | [], h, f + 1 => rfl
  | c :: cs, h, f + 1 => by
    have hc : c ≠ '`' := fun he => h (he ▸ List.mem_cons_self c cs)
    have ih := replaceFGo_id cs (fun hm => h (List.mem_cons_of_mem c hm)) f
    simp only [replaceFGo, tryFence_none_of cs hc]
    rw [ih]

theorem tryHeading_none_of {c : Char} (cs : List Char) (h : c ≠ '#') :
    tryHeading (c :: cs) = none := by
  unfold tryHeading
  rw [List.takeWhile_cons_of_neg (by simpa using h)]
  simp

theorem stripHGo_id : ∀ (l : List Char), '#' ∉ l → ∀ f atLS, stripHGo f atLS l = l
  | l, h, 0, atLS => rfl
  | [], h, f + 1, atLS => rfl
  | c :: cs, h, f + 1, atLS => by
    have hc : c ≠ '#' := fun he => h (he ▸ List.mem_cons_self c cs)
    have ih := stripHGo_id cs (fun hm => h (List.mem_cons_of_mem c hm)) f (c == '\n')
    cases atLS
    · simp only [stripHGo]
      rw [if_neg (by decide)]
      exact congrArg (fun t => c :: t) ih
    · simp only [stripHGo, if_true]
      rw [tryHeading_none_of cs hc]
      exact congrArg (fun t => c :: t) ih

theorem tryPython_none_of {l : List Char} (h : ¬ ("Python".data <+: l)) :
    tryPython l = none := by
  unfold tryPython
  rw [if_neg (by simpa using h)]

theorem removePyGo_id : ∀ (l : List Char), ¬ ("Python".data <:+: l) →
    ∀ f atLS, removePyGo f atLS l = l
  | l, h, 0, atLS => rfl
  | [], h, f + 1, atLS => rfl
  | c :: cs, h, f + 1, atLS => by
    have hp : ¬ ("Python".data <+: (c :: cs)) := fun hx => h hx.isInfix
    have ih := removePyGo_id cs (fun hx => h (List.infix_cons hx)) f (c == '\n')
    cases atLS
    · simp only [removePyGo]
      rw [if_neg (by decide)]
      exact congrArg (fun t => c :: t) ih
    · simp only [removePyGo, if_true]
      rw [tryPython_none_of hp]
      exact congrArg (fun t => c :: t) ih

theorem take_two_newlines : ∀ {cs : List Char}, cs.take 2 = ['\n', '\n'] →
    ∃ t, cs = '\n' :: '\n' :: t := by
  intro cs h
  rcases cs with _ | ⟨a, _ | ⟨b, t⟩⟩
  · simp at h
  · simp [List.take] at h
  · rw [List.take_succ_cons, List.take_succ_cons] at h
    simp at h
    exact ⟨t, by rw [h.1, h.2]⟩

theorem head_dropWhile_not (p : Char → Bool) : ∀ (l : List Char) (a : Char),
    (l.dropWhile p).head? = some a → p a = false
  | [], a, h => by simp at h
  | c :: cs, a, h => by
    by_cases hp : p c
    · rw [List.dropWhile_cons_of_pos hp] at h
      exact head_dropWhile_not p cs a h
    · rw [List.dropWhile_cons_of_neg hp] at h
      simp at h
      rw [← h]
      simpa using hp

/-- Definitional unfolding of `collapseGo` on positive fuel and a cons. -/
theorem collapseGo_cons (f : Nat) (c : Char) (cs : List Char) :
    collapseGo (f + 1) (c :: cs) =
      if c = '\n' ∧ cs.take 2 = ['\n', '\n'] then
        '\n' :: '\n' :: collapseGo f ((cs.drop 2).dropWhile (fun c => c == '\n'))
      else c :: collapseGo f cs := rfl

theorem collapseGo_mem : ∀ (f : Nat) (l : List Char) (x : Char),
    x ∈ collapseGo f l → x ∈ l
  | 0, l, x, h => h
  | f + 1, [], x, h => by
    rw [show collapseGo (f + 1) ([] : List Char) = [] from rfl] at h
    exact h
  | f + 1, c :: cs, x, h => by
    by_cases hc : c = '\n' ∧ cs.take 2 = ['\n', '\n']
    · rw [collapseGo_cons, if_pos hc] at h
      rcases List.mem_cons.1 h with rfl | h
      · rw [hc.1]; exact List.mem_cons_self _ _
      rcases List.mem_cons.1 h with rfl | h
      · rw [hc.1]; exact List.mem_cons_self _ _
      · have h2 := collapseGo_mem f _ x h
        have h3 : x ∈ cs.drop 2 := (List.dropWhile_sublist _).subset h2
        exact List.mem_cons_of_mem c (List.drop_subset 2 cs h3)
    · rw [collapseGo_cons, if_neg hc] at h
      rcases List.mem_cons.1 h with rfl | h
      · exact List.mem_cons_self _ _
      · exact List.mem_cons_of_mem c (collapseGo_mem f cs x h)

theorem collapseGo_head : ∀ (f : Nat) (l : List Char),
    (collapseGo f l).head? = l.head?
  | 0, l => rfl
  | f + 1, [] => rfl
  | f + 1, c :: cs => by
    by_cases hc : c = '\n' ∧ cs.take 2 = ['\n', '\n']
    · rw [collapseGo_cons, if_pos hc]
      simp [hc.1]
    · rw [collapseGo_cons, if_neg hc]
      rfl

theorem nn_prefix_collapseGo : ∀ (f : Nat) (l : List Char),
    ['\n', '\n'] <+: collapseGo f l → ['\n', '\n'] <+: l
  | 0, l, h => h
  | f + 1, [], h => by
    rw [show collapseGo (f + 1) ([] : List Char) = [] from rfl] at h
    simp at h
  | f + 1, c :: cs, h => by
    by_cases hc : c = '\n' ∧ cs.take 2 = ['\n', '\n']
    · obtain ⟨t, ht⟩ := take_two_newlines hc.2
      rw [hc.1, ht]
      exact ⟨'\n' :: t, rfl⟩
    · rw [collapseGo_cons, if_neg hc] at h
      obtain ⟨he, h2⟩ := List.cons_prefix_cons.1 h
      obtain ⟨t2, ht2⟩ := h2
      have hh : cs.head? = some '\n' := by
        rw [← collapseGo_head f cs, ← ht2]; rfl
      rcases cs with _ | ⟨b, t⟩
      · simp at hh
      · simp at hh
        rw [← he, hh]
        exact ⟨t, rfl⟩

theorem collapseGo_no_triple : ∀ (f : Nat) (l : List Char), l.length ≤ f →
    ¬ (['\n', '\n', '\n'] <:+: collapseGo f l)
  | 0, l, hlen, h => by
    have h0 : l = [] := List.length_eq_zero.1 (Nat.le_zero.1 hlen)
    rw [h0] at h
    exact absurd (List.infix_nil.1 h) (by decide)
  | f + 1, l, hlen, h => by
    rcases l with _ | ⟨c, cs⟩
    · rw [show collapseGo (f + 1) ([] : List Char) = [] from rfl] at h
      exact absurd (List.infix_nil.1 h) (by decide)
    have hcs : cs.length ≤ f := Nat.le_of_succ_le_succ (by simpa using hlen)
    by_cases hc : c = '\n' ∧ cs.take 2 = ['\n', '\n']
    · rw [collapseGo_cons, if_pos hc] at h
      have hrlen : ((cs.drop 2).dropWhile (fun c => c == '\n')).length ≤ f := by
        calc ((cs.drop 2).dropWhile (fun c => c == '\n')).length
            ≤ (cs.drop 2).length := (List.dropWhile_sublist _).length_le
          _ ≤ cs.length := by rw [List.length_drop]; exact Nat.sub_le _ _
          _ ≤ f := hcs
      rcases List.infix_cons_iff.1 h with h | h
      · obtain ⟨h1, h4⟩ := List.cons_prefix_cons.1 h
        obtain ⟨h5, h6⟩ := List.cons_prefix_cons.1 h4
        obtain ⟨t6, ht6⟩ := h6
        have hh : ((cs.drop 2).dropWhile (fun c => c == '\n')).head? = some '\n' := by
          rw [← collapseGo_head f _, ← ht6]; rfl
        have h7 := head_dropWhile_not (fun c => c == '\n') (cs.drop 2) '\n' hh
        simp at h7
      rcases List.infix_cons_iff.1 h with h | h
      · obtain ⟨h1, h4⟩ := List.cons_prefix_cons.1 h
        obtain ⟨t5, ht5⟩ := nn_prefix_collapseGo f _ h4
        have hh : ((cs.drop 2).dropWhile (fun c => c == '\n')).head? = some '\n' := by
          rw [← ht5]; rfl
        have h7 := head_dropWhile_not (fun c => c == '\n') (cs.drop 2) '\n' hh
        simp at h7
      · exact collapseGo_no_triple f _ hrlen h
    · rw [collapseGo_cons, if_neg hc] at h
      rcases List.infix_cons_iff.1 h with h | h
      · obtain ⟨h1, h4⟩ := List.cons_prefix_cons.1 h
        obtain ⟨t5, ht5⟩ := nn_prefix_collapseGo f cs h4
        apply hc
        refine ⟨h1.symm, ?_⟩
        rw [← ht5]
        rfl
      · exact collapseGo_no_triple f cs hcs h

theorem collapseGo_id_of_no_triple : ∀ (l : List Char),
    ¬ (['\n', '\n', '\n'] <:+: l) → ∀ f, collapseGo f l = l
  | l, h, 0 => rfl
  | [], h, f + 1 => rfl
  | c :: cs, h, f + 1 => by
    have hcs : ¬ (['\n', '\n', '\n'] <:+: cs) := fun hx => h (List.infix_cons hx)
    have hc : ¬ (c = '\n' ∧ cs.take 2 = ['\n', '\n']) := by
      rintro ⟨rfl, ht⟩
      obtain ⟨t, ht2⟩ := take_two_newlines ht
      apply h
      rw [ht2]
      exact (show ['\n', '\n', '\n'] <+: '\n' :: '\n' :: '\n' :: t from ⟨t, rfl⟩).isInfix
    rw [collapseGo_cons, if_neg hc, collapseGo_id_of_no_triple cs hcs f]

theorem nlfree_prefix_collapseGo : ∀ (f : Nat) (l u : List Char),
    '\n' ∉ u → u <+: collapseGo f l → u <+: l
  | 0, l, u, hn, h => h
  | f + 1, [], u, hn, h => by
    rw [show collapseGo (f + 1) ([] : List Char) = [] from rfl] at h
    exact h
  | f + 1, c :: cs, u, hn, h => by
    by_cases hc : c = '\n' ∧ cs.take 2 = ['\n', '\n']
    · rw [collapseGo_cons, if_pos hc] at h
      rcases u with _ | ⟨a, u2⟩
      · exact List.nil_prefix
      · obtain ⟨ha, h2⟩ := List.cons_prefix_cons.1 h
        subst ha
        exact absurd (List.mem_cons_self '\n' u2) hn
    · rw [collapseGo_cons, if_neg hc] at h
      rcases u with _ | ⟨a, u2⟩
      · exact List.nil_prefix
      · obtain ⟨ha, h2⟩ := List.cons_prefix_cons.1 h
        subst ha
        have hn2 : '\n' ∉ u2 := fun hm => hn (List.mem_cons_of_mem _ hm)
        exact List.cons_prefix_cons.2 ⟨rfl, nlfree_prefix_collapseGo f cs u2 hn2 h2⟩

theorem nlfree_infix_collapseGo : ∀ (f : Nat) (l u : List Char),
    u ≠ [] → '\n' ∉ u → u <:+: collapseGo f l → u <:+: l
  | 0, l, u, hne, hn, h => h
  | f + 1, [], u, hne, hn, h => by
    rw [show collapseGo (f + 1) ([] : List Char) = [] from rfl] at h
    exact absurd (List.infix_nil.1 h) hne
  | f + 1, c :: cs, u, hne, hn, h => by
    by_cases hc : c = '\n' ∧ cs.take 2 = ['\n', '\n']
    · rw [collapseGo_cons, if_pos hc] at h
      rcases List.infix_cons_iff.1 h with h | h
      · have hp : u <+: collapseGo (f + 1) (c :: cs) := by
          rw [collapseGo_cons, if_pos hc]; exact h
        exact (nlfree_prefix_collapseGo (f + 1) (c :: cs) u hn hp).isInfix
      rcases List.infix_cons_iff.1 h with h | h
      · rcases u with _ | ⟨a, u2⟩
        · exact absurd rfl hne
        · obtain ⟨ha, h2⟩ := List.cons_prefix_cons.1 h
          subst ha
          exact absurd (List.mem_cons_self '\n' u2) hn
      · have h5 := nlfree_infix_collapseGo f _ u hne hn h
        have h6 : ((cs.drop 2).dropWhile (fun c => c == '\n')) <:+ c :: cs :=
          ((List.dropWhile_suffix _).trans (List.drop_suffix 2 cs)).trans
            (List.suffix_cons c cs)
        exact h5.trans h6.isInfix
    · rw [collapseGo_cons, if_neg hc] at h
      rcases List.infix_cons_iff.1 h with h | h
      · have hp : u <+: collapseGo (f + 1) (c :: cs) := by
          rw [collapseGo_cons, if_neg hc]; exact h
        exact (nlfree_prefix_collapseGo (f + 1) (c :: cs) u hn hp).isInfix
      · exact List.infix_cons (nlfree_infix_collapseGo f cs u hne hn h)

/-- On a document with no backtick, no `#`, and no occurrence of `Python`,
one `clean_for_social` pass is blank-line collapsing plus stripping, and a
second pass changes nothing. -/
theorem cleanL_idem (l : List Char) (h1 : '`' ∉ l) (h2 : '#' ∉ l)
    (h3 : ¬ ("Python".data <:+: l)) : cleanL (cleanL l) = cleanL l := by
  unfold cleanL replaceCodeBlocksL stripHeadingsL removePythonLinesL collapseNLL
  rw [replaceFGo_id l h1, stripHGo_id l h2, removePyGo_id l h3]
  set b := pyStripL (collapseGo l.length l) with hb
  have hbinf : b <:+: collapseGo l.length l := pyStripL_isInfix _
  have hmem : ∀ x, x ∈ b → x ∈ l := fun x hx =>
    collapseGo_mem _ _ _ (hbinf.sublist.subset hx)
  have hb1 : '`' ∉ b := fun hx => h1 (hmem _ hx)
  have hb2 : '#' ∉ b := fun hx => h2 (hmem _ hx)
  have hb3 : ¬ ("Python".data <:+: b) := fun hx =>
    h3 (nlfree_infix_collapseGo l.length l _ (by decide) (by decide) (hx.trans hbinf))
  rw [replaceFGo_id b hb1, stripHGo_id b hb2, removePyGo_id b hb3]
  have hnt : ¬ (['\n', '\n', '\n'] <:+: b) := fun hx =>
    collapseGo_no_triple l.length l le_rfl (hx.trans hbinf)
  rw [collapseGo_id_of_no_triple b hnt]
  rw [hb]
  exact pyStripL_idem _

/-- C4 (amended): `clean_for_social` is not idempotent in general (nested
heading markup is stripped again by a second pass — see the
counterexample), but it is idempotent on every input containing no
backtick, no `#` character, and no occurrence of `Python`. -/
theorem clean_for_social_idem_restricted (s : String)
    (h1 : '`' ∉ s.data) (h2 : '#' ∉ s.data)
    (h3 : ¬ ("Python".data <:+: s.data)) :
    clean_for_social (clean_for_social s) = clean_for_social s :=
  congrArg String.mk (cleanL_idem s.data h1 h2 h3)

/-- Witness for the amended C4 at a concrete document with surplus blank
lines and trailing spaces. -/
theorem clean_for_social_idem_restricted_witness :
    ('`' ∉ "Hello\n\n\n\nWorld  ".data ∧ '#' ∉ "Hello\n\n\n\nWorld  ".data ∧
      ¬ ("Python".data <:+: "Hello\n\n\n\nWorld  ".data)) ∧
    clean_for_social (clean_for_social "Hello\n\n\n\nWorld  ") =
      clean_for_social "Hello\n\n\n\nWorld  " :=
  ⟨⟨by decide, by decide, by decide⟩,
   clean_for_social_idem_restricted "Hello\n\n\n\nWorld  "
     (by decide) (by decide) (by decide)⟩
